import Mathlib

/-!
Shallow embedding of the SVCS snapshot engine (a minimal version-control
core written in Go).  The repository holds several stages of the same
program:

* `main.go` (final stage) — commands `config`, `add`, `log`, `commit`,
  `checkout`; commit flow `doCommit` → `saveCommit` → `computeHash` /
  `hasChanges` / `commitFiles` / `addLog`; checkout flow `doCheckout` →
  `findCommit` → `restoreCommit`.  Embedded below in namespace `Main`.
* `unnamed/part_000` (another stage) — commit flow `doCommit` →
  `Commit.Save` → `computeHash` / `commitFiles` / `addLog` / `clearStage`;
  `getCommits` reverses the parsed log.  Embedded in namespace `Part0`.

Modelling conventions:

* Byte strings and file contents are `List Char` (`Str`).
* The on-disk state (`vcs/config.txt`, `vcs/index.txt`, `vcs/log.txt`,
  `vcs/commits/<hash>/<path>`, plus the working tree) is a `VcsState`
  record; the commit store is an association list keyed by
  `(hash, path)` because the Go code creates `commits/<hash>` lazily,
  one copied file at a time (`copyFile` runs `os.MkdirAll` per file),
  and `hasChanges` tests mere existence of the `commits/<hash>`
  directory.
* `log.Fatal` / panics abort the whole operation: fallible operations
  return `Option`, `none` meaning the fatal abort.
* The SHA-256 digest (Go library `crypto/sha256`, external to this
  repository) is abstracted as a parameter `hashFn : Str → Str` applied
  to the concatenation of the staged files' bytes in staged order —
  exactly the stream `computeHash` feeds into the accumulator.  Every
  theorem below is independent of the digest function's internals.
* `bufio.Scanner` line reading is `goScanLines`: split on the newline
  character, dropping a final empty chunk (a trailing newline does not
  produce an extra empty line, matching Go's scanner).
-/

/-- Byte strings / file contents, as lists of characters. -/
abbrev Str := List Char

/-- Working tree: association list from path to content. -/
abbrev WorkFS := List (Str × Str)

/-- Commit store: association list from `(hash, path)` to stored bytes.
A `commits/<hash>` directory exists iff some entry carries that hash. -/
abbrev Store := List ((Str × Str) × Str)

/-- Split a character list at every occurrence of `sep`; never returns `[]`
(an empty input yields one empty chunk), mirroring `strings.Split`. -/
def splitOnChar (sep : Char) : List Char → List (List Char)
  | [] => [[]]
  | c :: rest =>
    if c = sep then [] :: splitOnChar sep rest
    else
      match splitOnChar sep rest with
      | [] => [[c]]
      | p :: ps => (c :: p) :: ps

/-- The lines a `bufio.Scanner` yields from file content `s`: split on
newlines, dropping the final empty chunk produced by a trailing newline
(the scanner emits no empty last token at end of input). -/
def goScanLines (s : Str) : List Str :=
  let ps := splitOnChar '\n' s
  if ps.getLast? = some [] then ps.dropLast else ps

/-- Split at the first occurrence of `sep`: returns the chunk before it
and, when `sep` occurs, the remainder after it. -/
def breakAtChar (sep : Char) : List Char → List Char × Option (List Char)
  | [] => ([], none)
  | c :: rest =>
    if c = sep then ([], some rest)
    else
      match breakAtChar sep rest with
      | (pre, r) => (c :: pre, r)

/-- `strings.SplitN s sep n`: at most `n` chunks, the last chunk being the
unsplit remainder of the input. -/
def splitNChar (sep : Char) : Nat → List Char → List (List Char)
  | 0, _ => []
  | 1, s => [s]
  | Nat.succ (Nat.succ n), s =>
    match breakAtChar sep s with
    | (_, none) => [s]
    | (pre, some rest) => pre :: splitNChar sep (Nat.succ n) rest

/-- First line of a file's content, as `Scanner.Scan(); Scanner.Text()`
reads it: the empty string on an empty file. -/
def firstLine (s : Str) : Str :=
  match splitOnChar '\n' s with
  | [] => []
  | l :: _ => l

/-- Association-list lookup by key (Go map / file lookup). -/
def lookupAssoc {α β : Type} [BEq α] (l : List (α × β)) (k : α) : Option β :=
  (l.find? (fun e => e.1 == k)).map (fun e => e.2)

/-- Association-list update: overwrite the value at `k` when present
(`os.Create` truncates an existing destination), append otherwise. -/
def updateAssoc {α β : Type} [DecidableEq α] : List (α × β) → α → β → List (α × β)
  | [], k, v => [(k, v)]
  | e :: rest, k, v =>
    if e.1 = k then (k, v) :: rest else e :: updateAssoc rest k v

/-- The whole persistent state the program touches: the working tree,
`vcs/config.txt` (absent or some content), `vcs/index.txt` content,
the commit store under `vcs/commits/`, and `vcs/log.txt` content.
An absent index or log file reads the same as an empty one. -/
structure VcsState where
  fs : WorkFS
  config : Option Str
  index : Str
  store : Store
  log : Str
deriving DecidableEq

/-- `getUsername` (identical in every stage): open `config.txt` — a
missing file is the only error; an existing file yields its first line,
which is the empty string for an empty file, with no error. -/
def getUsername (config : Option Str) : Option Str :=
  config.map firstLine

/-- `getTrackedFiles` / reading `index.txt`: the staged paths, one per
line; a missing index file yields the empty list like an empty one. -/
def getTrackedFiles (index : Str) : List Str :=
  goScanLines index

/-- The byte stream `computeHash` feeds into the SHA-256 accumulator:
each staged file's content, concatenated in staged order.  `none` models
the `log.Fatal` abort when a staged file cannot be opened. -/
def readAll (fs : WorkFS) : List Str → Option Str
  | [] => some []
  | f :: rest =>
    match lookupAssoc fs f with
    | none => none
    | some c => (readAll fs rest).map (fun r => c ++ r)

/-- `computeHash` over the staged files: digest of the concatenated
stream, with the digest function abstracted as `hashFn`. -/
def computeHash (hashFn : Str → Str) (fs : WorkFS) (files : List Str) : Option Str :=
  (readAll fs files).map hashFn

/-- `hasChanges` (main.go): `os.Stat(commits/<hash>)` succeeds iff some
file was ever copied under that hash; changes exist iff it fails. -/
def hasChanges (store : Store) (hash : Str) : Bool :=
  !(store.any fun e => e.1.1 == hash)

/-- `commitFiles` (identical in main.go and part_000): copy each staged
file's current content into the store under `(hash, path)`, in staged
order; `none` models the `log.Fatal` abort on an unreadable source. -/
def commitFiles (fs : WorkFS) (hash : Str) : List Str → Store → Option Store
  | [], store => some store
  | f :: rest, store =>
    match lookupAssoc fs f with
    | none => none
    | some c => commitFiles fs hash rest (updateAssoc store (hash, f) c)

namespace Main

/-- `Commit` record as declared in main.go: only hash, username, message. -/
structure Commit where
  Hash : Str
  Username : Str
  Message : Str
deriving DecidableEq

/-- The log line `addLog` writes for a commit:
`<hash> <username> <message>` terminated by a newline. -/
def lineOf (c : Commit) : Str :=
  c.Hash ++ ' ' :: (c.Username ++ ' ' :: (c.Message ++ ['\n']))

/-- `addLog` (main.go): append the commit's line to `log.txt`. -/
def addLog (c : Commit) (logged : Str) : Str :=
  logged ++ lineOf c

/-- The log file obtained by committing the given commits in order onto
an initially absent log, via `addLog`. -/
def logFileOf (cs : List Commit) : Str :=
  cs.foldl (fun l c => addLog c l) []

/-- Parsing one log line in `getCommits` (main.go):
`strings.SplitN(line, " ", 3)` then index `data[0] data[1] data[2]`;
fewer than three chunks is an index-out-of-range panic (`none`). -/
def parseLine (l : Str) : Option Commit :=
  match splitNChar ' ' 3 l with
  | [h, u, m] => some ⟨h, u, m⟩
  | _ => none

/-- Parse every scanned line; the first malformed line aborts. -/
def parseAll : List Str → Option (List Commit)
  | [] => some []
  | l :: ls =>
    match parseLine l, parseAll ls with
    | some c, some cs => some (c :: cs)
    | _, _ => none

/-- `getCommits` (main.go): scan `log.txt` line by line, parsing each
into a `Commit`; the resulting list is in file (chronological) order.
A missing log file reads as the empty one. -/
def getCommits (logged : Str) : Option (List Commit) :=
  parseAll (goScanLines logged)

/-- `findCommit` (main.go): the first commit, in chronological order,
whose hash equals the argument.  Outer `none` is the parse panic; inner
`none` is the soft not-found result. -/
def findCommit (hash : Str) (logged : Str) : Option (Option Commit) :=
  (getCommits logged).map (fun cs => cs.find? (fun c => c.Hash == hash))

/-- `Commit.show` (main.go): the three lines printed for a commit. -/
def showCommit (c : Commit) : List Str :=
  ["commit ".data ++ c.Hash, "Author: ".data ++ c.Username, c.Message]

/-- `restoreCommit` (main.go): prints the commit and nothing else —
the working tree, index, store and log are left untouched. -/
def restoreCommit (c : Commit) (s : VcsState) : VcsState × List Str :=
  (s, showCommit c)

def commitIdNotPassedMsg : Str := "Commit id was not passed.".data
def notExistMsg : Str := "Commit does not exist.".data
def messageNotPassedMsg : Str := "Message was not passed.".data
def whoAreYouMsg : Str := "Please, tell me who are you.".data
def committedMsg : Str := "Changes are committed.".data
def nothingMsg : Str := "Nothing to commit.".data
def noCommitsMsg : Str := "No commits yet.".data
def addFileMsg : Str := "Add a file to the index.".data
def trackedHeaderMsg : Str := "Tracked files:".data

/-- Message `doAdd` prints for a missing path. -/
def cantFindMsg (f : Str) : Str :=
  "Can't find '".data ++ f ++ "'.".data

/-- Message `doAdd` prints on success. -/
def trackedMsg (f : Str) : Str :=
  "The file '".data ++ f ++ "' is tracked.".data

/-- `doCheckout` (main.go): resolve the hash via `findCommit`; an absent
commit is reported softly; a found commit is handed to `restoreCommit`. -/
def doCheckout (args : List Str) (s : VcsState) : Option (VcsState × List Str) :=
  match args with
  | [h] =>
    match findCommit h s.log with
    | none => none
    | some none => some (s, [notExistMsg])
    | some (some c) => some (restoreCommit c s)
  | _ => some (s, [commitIdNotPassedMsg])

/-- `showTrackedFiles` (main.go): list the staged paths, or prompt to
add one. -/
def showTrackedFiles (s : VcsState) : List Str :=
  match getTrackedFiles s.index with
  | [] => [addFileMsg]
  | fs => trackedHeaderMsg :: fs

/-- `doAdd` (main.go): with one argument, stat the path — a missing path
is reported and nothing is mutated; an existing path is appended to
`index.txt` with a trailing newline. -/
def doAdd (args : List Str) (s : VcsState) : VcsState × List Str :=
  match args with
  | [f] =>
    match lookupAssoc s.fs f with
    | none => (s, [cantFindMsg f])
    | some _ => ({ s with index := s.index ++ f ++ ['\n'] }, [trackedMsg f])
  | _ => (s, showTrackedFiles s)

/-- `saveCommit` (main.go): read the staged paths, hash their streamed
content, and — when `commits/<hash>` does not exist yet — copy the files
into the store and append a log line.  The staging index is not touched
on either path. -/
def saveCommit (hashFn : Str → Str) (username message : Str) (s : VcsState) :
    Option (VcsState × Bool) :=
  match readAll s.fs (getTrackedFiles s.index) with
  | none => none
  | some bytes =>
    if hasChanges s.store (hashFn bytes) then
      match commitFiles s.fs (hashFn bytes) (getTrackedFiles s.index) s.store with
      | none => none
      | some store' =>
        some ({ s with
                  store := store'
                  log := addLog ⟨hashFn bytes, username, message⟩ s.log }, true)
    else
      some (s, false)

/-- `doCommit` (main.go): require exactly one argument and a readable
config file, then run `saveCommit` and report the outcome. -/
def doCommit (hashFn : Str → Str) (args : List Str) (s : VcsState) :
    Option (VcsState × List Str) :=
  match args with
  | [m] =>
    match getUsername s.config with
    | none => some (s, [whoAreYouMsg])
    | some u =>
      (saveCommit hashFn u m s).map
        (fun r => (r.1, [if r.2 then committedMsg else nothingMsg]))
  | _ => some (s, [messageNotPassedMsg])

/-- The lines `doLog` prints for a nonempty displayed sequence: the first
commit, then a blank line before each further one. -/
def renderLog : List Commit → List Str
  | [] => []
  | c :: rest => showCommit c ++ (rest.map (fun d => ([] : Str) :: showCommit d)).flatten

/-- `doLog` (main.go): parse the log; an empty one reports
"No commits yet."; otherwise the commits are shown from the last parsed
line down to the first — reverse-chronological display order. -/
def doLog (logged : Str) : Option (List Str) :=
  (getCommits logged).map
    (fun cs => if cs.isEmpty then [noCommitsMsg] else renderLog cs.reverse)

/-- The body of a commit's log line, without the trailing newline. -/
def bodyOf (c : Commit) : Str :=
  c.Hash ++ ' ' :: (c.Username ++ ' ' :: c.Message)

/-- A commit whose fields survive the space-separated line format:
no spaces or newlines in hash and username, no newline in the message. -/
def LogSafe (c : Commit) : Prop :=
  ' ' ∉ c.Hash ∧ '\n' ∉ c.Hash ∧ ' ' ∉ c.Username ∧ '\n' ∉ c.Username ∧ '\n' ∉ c.Message

instance (c : Commit) : Decidable (LogSafe c) := by
  unfold LogSafe; infer_instance

end Main

namespace Part0

/-- `Person` record as declared in part_000. -/
structure Person where
  Name : Str
deriving DecidableEq

/-- `Commit` record as declared in part_000: hash, author, message and
the staged file list the commit was built from.  `getCommits` leaves
`Files` at its zero value (the empty list). -/
structure Commit where
  Hash : Str
  Author : Person
  Message : Str
  Files : List Str
deriving DecidableEq

/-- The log line part_000's `addLog` writes:
`<hash> <author name> <message>` and a newline — `Files` is not
persisted. -/
def lineOf (c : Commit) : Str :=
  c.Hash ++ ' ' :: (c.Author.Name ++ ' ' :: (c.Message ++ ['\n']))

/-- Parsing one log line in part_000's `getCommits`: same
`strings.SplitN(line, " ", 3)` as main.go, with `Files` left at its
zero value. -/
def parseLine (l : Str) : Option Commit :=
  match splitNChar ' ' 3 l with
  | [h, u, m] => some ⟨h, ⟨u⟩, m, []⟩
  | _ => none

/-- Parse every scanned line; the first malformed line aborts. -/
def parseAll : List Str → Option (List Commit)
  | [] => some []
  | l :: ls =>
    match parseLine l, parseAll ls with
    | some c, some cs => some (c :: cs)
    | _, _ => none

/-- `getCommits` (part_000): parse `log.txt` in file order and then
`slices.Reverse` the result, so the returned sequence is
reverse-chronological (display order). -/
def getCommits (logged : Str) : Option (List Commit) :=
  (parseAll (goScanLines logged)).map List.reverse

def messageNotPassedMsg : Str := "Message was not passed.".data
def nothingMsg : Str := "Nothing to commit.".data
def whoAreYouMsg : Str := "Please, tell me who are you.".data
def commitedMsg : Str := "Changes are commited.".data

/-- `doCommit` (part_000): require one argument; an empty staged set is
reported as "Nothing to commit." before anything else; then require a
readable config file; then `Commit.Save` — `computeHash`, `commitFiles`,
`addLog` (unconditionally, no store check), and `clearStage`, which
truncates `index.txt` to empty. -/
def doCommit (hashFn : Str → Str) (args : List Str) (s : VcsState) :
    Option (VcsState × List Str) :=
  match args with
  | [m] =>
    match getTrackedFiles s.index with
    | [] => some (s, [nothingMsg])
    | files =>
      match getUsername s.config with
      | none => some (s, [whoAreYouMsg])
      | some u =>
        match readAll s.fs files with
        | none => none
        | some bytes =>
          match commitFiles s.fs (hashFn bytes) files s.store with
          | none => none
          | some store' =>
            some ({ s with
                      store := store'
                      log := s.log ++ lineOf ⟨hashFn bytes, ⟨u⟩, m, files⟩
                      index := [] }, [commitedMsg])
  | _ => some (s, [messageNotPassedMsg])

end Part0

/-- Working state for the C1 counterexample: one commit `h1` of
`a.txt` (content "hello" at commit time) is in the log and the store,
and the working tree's `a.txt` was modified to "bye" afterwards. -/
def c1State : VcsState :=
  ⟨[("a.txt".data, "bye".data)], some "alice".data, [],
   [(("h1".data, "a.txt".data), "hello".data)], "h1 alice first\n".data⟩

/-- Working state for C2: configured username, nothing staged. -/
def c2State : VcsState :=
  ⟨[], some "alice".data, [], [], []⟩

/-- Working state for C3's counterexample: configured username, one
staged, readable, previously-unseen file. -/
def c3State : VcsState :=
  ⟨[("a.txt".data, "hello".data)], some "alice".data, "a.txt\n".data, [], []⟩

/-- Working state for C3's witness: same shape as `c3State`. -/
def c3WitnessState : VcsState :=
  ⟨[("a.txt".data, "hello".data)], some "alice".data, "a.txt\n".data, [], []⟩

/-- Working state for C4's counterexample: configured username and an
empty staged set. -/
def c4State : VcsState :=
  ⟨[], some "alice".data, [], [], []⟩

/-- Working state for C4's witness: one staged readable file. -/
def c4WitnessState : VcsState :=
  ⟨[("a.txt".data, "hello".data)], some "alice".data, "a.txt\n".data, [], []⟩

/-- Working state for C8's counterexample: the config file exists but
holds the empty identity; one staged readable file. -/
def c8State : VcsState :=
  ⟨[("a.txt".data, "hi".data)], some [], "a.txt\n".data, [], []⟩


example : splitOnChar '\n' "a\nb\n".data = ["a".data, "b".data, []] := by decide
example : goScanLines "a\nb\n".data = ["a".data, "b".data] := by decide
example : goScanLines "a\n\nb".data = ["a".data, [], "b".data] := by decide
example : goScanLines [] = [] := by decide
example : splitNChar ' ' 3 "h u a b c".data = ["h".data, "u".data, "a b c".data] := by decide
example : splitNChar ' ' 3 "h u".data = ["h".data, "u".data] := by decide
example : firstLine [] = [] := by decide
example : firstLine "alice\nbob".data = "alice".data := by decide

example :
    Main.getCommits "h1 alice first\nh2 bob second msg\n".data =
      some [⟨"h1".data, "alice".data, "first".data⟩,
            ⟨"h2".data, "bob".data, "second msg".data⟩] := by decide
example : Main.getCommits [] = some [] := by decide
example : Main.doLog [] = some [Main.noCommitsMsg] := by decide
example :
    Main.doCommit (fun b => b) ["msg".data]
      ⟨[], some "alice".data, [], [], []⟩ =
    some (⟨[], some "alice".data, [], [], " alice msg\n".data⟩,
      [Main.committedMsg]) := by decide

example :
    Part0.getCommits "h1 alice first\nh2 bob second\n".data =
      some [⟨"h2".data, ⟨"bob".data⟩, "second".data, []⟩,
            ⟨"h1".data, ⟨"alice".data⟩, "first".data, []⟩] := by decide
example :
    Part0.doCommit (fun b => b) ["m".data]
      ⟨[("a.txt".data, "hi".data)], some "alice".data, "a.txt\n".data, [], []⟩ =
    some (⟨[("a.txt".data, "hi".data)], some "alice".data, [],
           [(("hi".data, "a.txt".data), "hi".data)], "hi alice m\n".data⟩,
      [Part0.commitedMsg]) := by decide
example :
    Part0.doCommit (fun b => b) ["m".data]
      ⟨[], some "alice".data, [], [], []⟩ =
    some (⟨[], some "alice".data, [], [], []⟩, [Part0.nothingMsg]) := by decide

theorem splitOnChar_ne_nil (sep : Char) (s : List Char) : splitOnChar sep s ≠ [] := by
  induction s with
  | nil => simp [splitOnChar]
  | cons c rest ih =>
    by_cases hc : c = sep
    · simp [splitOnChar, hc]
    · simp only [splitOnChar, if_neg hc]
      cases h : splitOnChar sep rest with
      | nil => exact absurd h ih
      | cons p ps => simp

theorem splitOnChar_not_mem {sep : Char} {s : List Char} (h : sep ∉ s) :
    splitOnChar sep s = [s] := by
  induction s with
  | nil => rfl
  | cons c rest ih =>
    have hc : ¬ c = sep := fun he => h (he ▸ List.mem_cons_self c rest)
    have hrest : sep ∉ rest := fun hm => h (List.mem_cons_of_mem c hm)
    simp only [splitOnChar, if_neg hc, ih hrest]

theorem splitOnChar_append {sep : Char} {xs : List Char} (ys : List Char)
    (h : sep ∉ xs) :
    splitOnChar sep (xs ++ sep :: ys) = xs :: splitOnChar sep ys := by
  induction xs with
  | nil => simp [splitOnChar]
  | cons c rest ih =>
    have hc : ¬ c = sep := fun he => h (he ▸ List.mem_cons_self c rest)
    have hrest : sep ∉ rest := fun hm => h (List.mem_cons_of_mem c hm)
    simp only [List.cons_append, splitOnChar, if_neg hc, List.append_eq, ih hrest]

theorem splitOnChar_flatten_newline (ls : List Str)
    (h : ∀ l ∈ ls, '\n' ∉ l) :
    splitOnChar '\n' ((ls.map (fun l => l ++ ['\n'])).flatten) = ls ++ [[]] := by
  induction ls with
  | nil => rfl
  | cons l rest ih =>
    have hl : '\n' ∉ l := h l (List.mem_cons_self l rest)
    have hrest : ∀ x ∈ rest, '\n' ∉ x := fun x hx => h x (List.mem_cons_of_mem l hx)
    have : (l ++ ['\n']) ++ ((rest.map (fun l => l ++ ['\n'])).flatten) =
        l ++ '\n' :: ((rest.map (fun l => l ++ ['\n'])).flatten) := by
      simp [List.append_assoc]
    simp only [List.map_cons, List.flatten_cons, this, splitOnChar_append _ hl, ih hrest,
      List.cons_append]

theorem goScanLines_flatten (ls : List Str) (h : ∀ l ∈ ls, '\n' ∉ l) :
    goScanLines ((ls.map (fun l => l ++ ['\n'])).flatten) = ls := by
  simp only [goScanLines, splitOnChar_flatten_newline ls h]
  rw [List.getLast?_concat, if_pos rfl, List.dropLast_concat]

theorem breakAtChar_append {sep : Char} {xs : List Char} (ys : List Char)
    (h : sep ∉ xs) :
    breakAtChar sep (xs ++ sep :: ys) = (xs, some ys) := by
  induction xs with
  | nil => simp [breakAtChar]
  | cons c rest ih =>
    have hc : ¬ c = sep := fun he => h (he ▸ List.mem_cons_self c rest)
    have hrest : sep ∉ rest := fun hm => h (List.mem_cons_of_mem c hm)
    simp only [List.cons_append, breakAtChar, if_neg hc, List.append_eq, ih hrest]

namespace Main

theorem lineOf_eq_bodyOf (c : Commit) : lineOf c = bodyOf c ++ ['\n'] := by
  simp [lineOf, bodyOf]

theorem bodyOf_no_newline {c : Commit} (h : LogSafe c) : '\n' ∉ bodyOf c := by
  obtain ⟨-, h1, -, h2, h3⟩ := h
  intro hm
  simp only [bodyOf, List.mem_append, List.mem_cons] at hm
  rcases hm with h' | h' | h' | h' | h'
  · exact h1 h'
  · exact absurd h'.symm (by decide)
  · exact h2 h'
  · exact absurd h'.symm (by decide)
  · exact h3 h'

theorem parseLine_bodyOf {c : Commit} (h : LogSafe c) :
    parseLine (bodyOf c) = some c := by
  obtain ⟨h1, -, h2, -, -⟩ := h
  simp only [parseLine, bodyOf, splitNChar, breakAtChar_append _ h1,
    breakAtChar_append _ h2]

theorem logFileOf_eq_flatten (cs : List Commit) :
    logFileOf cs = (cs.map lineOf).flatten := by
  suffices h : ∀ init : Str, cs.foldl (fun l c => addLog c l) init =
      init ++ (cs.map lineOf).flatten by
    simpa using h []
  induction cs with
  | nil => intro init; simp
  | cons c rest ih =>
    intro init
    rw [List.foldl_cons, ih (addLog c init)]
    simp [addLog, List.append_assoc]

theorem parseAll_map_bodyOf (cs : List Commit) (h : ∀ c ∈ cs, LogSafe c) :
    parseAll (cs.map bodyOf) = some cs := by
  induction cs with
  | nil => rfl
  | cons c rest ih =>
    have hc := h c (List.mem_cons_self c rest)
    have hrest := fun x hx => h x (List.mem_cons_of_mem c hx)
    simp only [List.map_cons, parseAll, parseLine_bodyOf hc, ih hrest]

/-- Round trip at the heart of the log format: a log file produced by
appending the lines of `cs` (via `addLog`) parses back, through
`getCommits`, to exactly `cs`, in the same chronological order. -/
theorem getCommits_logFileOf (cs : List Commit) (h : ∀ c ∈ cs, LogSafe c) :
    getCommits (logFileOf cs) = some cs := by
  have hbody : ∀ l ∈ cs.map bodyOf, '\n' ∉ l := by
    intro l hl
    obtain ⟨c, hc, rfl⟩ := List.mem_map.mp hl
    exact bodyOf_no_newline (h c hc)
  have hmap : cs.map lineOf = (cs.map bodyOf).map (fun l => l ++ ['\n']) := by
    rw [List.map_map]
    exact List.map_congr_left (fun c _ => lineOf_eq_bodyOf c)
  rw [getCommits, logFileOf_eq_flatten, hmap, goScanLines_flatten _ hbody,
    parseAll_map_bodyOf cs h]

end Main

theorem updateAssoc_mem {α β : Type} [DecidableEq α] (l : List (α × β)) (k : α) (v : β) :
    ∀ e ∈ updateAssoc l k v, e ∈ l ∨ e = (k, v) := by
  induction l with
  | nil => intro e he; simp [updateAssoc] at he; simp [he]
  | cons x rest ih =>
    intro e he
    by_cases hx : x.1 = k
    · simp only [updateAssoc, if_pos hx, List.mem_cons] at he
      rcases he with he | he
      · exact Or.inr he
      · exact Or.inl (List.mem_cons_of_mem x he)
    · simp only [updateAssoc, if_neg hx, List.mem_cons] at he
      rcases he with he | he
      · exact Or.inl (he ▸ List.mem_cons_self x rest)
      · rcases ih e he with h' | h'
        · exact Or.inl (List.mem_cons_of_mem x h')
        · exact Or.inr h'

theorem updateAssoc_any_hash (st : Store) (h f : Str) (v : Str) :
    (updateAssoc st (h, f) v).any (fun e => e.1.1 == h) = true := by
  induction st with
  | nil => simp [updateAssoc]
  | cons x rest ih =>
    by_cases hx : x.1 = (h, f)
    · simp [updateAssoc, if_pos hx]
    · simp only [updateAssoc, if_neg hx, List.any_cons, ih, Bool.or_true]

/-- When every staged file is readable (`readAll` succeeds),
`commitFiles` succeeds, only adds or overwrites entries under the given
hash, and — when at least one file is staged — leaves the
`commits/<hash>` directory existing. -/
theorem commitFiles_of_readAll (fs : WorkFS) (h : Str) :
    ∀ (files : List Str) (st : Store) (bytes : Str),
      readAll fs files = some bytes →
      ∃ st', commitFiles fs h files st = some st' ∧
        (∀ e ∈ st', e ∈ st ∨ e.1.1 = h) ∧
        (files ≠ [] → st'.any (fun e => e.1.1 == h) = true) := by
  intro files
  induction files with
  | nil =>
    intro st bytes _
    exact ⟨st, rfl, fun e he => Or.inl he, fun hne => absurd rfl hne⟩
  | cons f rest ih =>
    intro st bytes hread
    simp only [readAll] at hread
    cases hf : lookupAssoc fs f with
    | none => rw [hf] at hread; exact absurd hread (by simp)
    | some c =>
      rw [hf] at hread
      cases hr : readAll fs rest with
      | none => rw [hr] at hread; exact absurd hread (by simp)
      | some bs =>
        obtain ⟨st', hcf, hsub, hany⟩ := ih (updateAssoc st (h, f) c) bs hr
        refine ⟨st', ?_, ?_, fun _ => ?_⟩
        · simp only [commitFiles, hf, hcf]
        · intro e he
          rcases hsub e he with h' | h'
          · rcases updateAssoc_mem st (h, f) c e h' with h'' | h''
            · exact Or.inl h''
            · exact Or.inr (by rw [h''])
          · exact Or.inr h'
        · cases rest with
          | nil =>
            have : st' = updateAssoc st (h, f) c := by
              simpa [commitFiles] using hcf.symm
            rw [this]
            exact updateAssoc_any_hash st h f c
          | cons g gs => exact hany (by simp)

/-- Helper for C10: every commit part_000's `parseLine` produces carries
an empty `Files` list. -/
theorem part0_parseLine_files (l : Str) (c : Part0.Commit)
    (h : Part0.parseLine l = some c) : c.Files = [] := by
  rw [Part0.parseLine] at h
  split at h
  · cases h; rfl
  · cases h

/-- Helper for C10: every commit part_000's `parseAll` produces carries
an empty `Files` list. -/
theorem part0_parseAll_files (ls : List Str) (cs : List Part0.Commit)
    (h : Part0.parseAll ls = some cs) : ∀ c ∈ cs, c.Files = [] := by
  induction ls generalizing cs with
  | nil =>
    rw [Part0.parseAll] at h
    cases h
    intro c hc
    cases hc
  | cons l rest ih =>
    rw [Part0.parseAll] at h
    cases hl : Part0.parseLine l with
    | none => rw [hl] at h; cases h
    | some c0 =>
      rw [hl] at h
      cases hr : Part0.parseAll rest with
      | none => rw [hr] at h; cases h
      | some cs0 =>
        rw [hr] at h
        cases h
        intro c hc
        rcases List.mem_cons.mp hc with rfl | hc
        · exact part0_parseLine_files l c hl
        · exact ih cs0 hr c hc

/-- C9: appending a commit whose hash and author contain no spaces or
newlines and whose message contains no newlines, then reading the log
back (`addLog` then `getCommits` in main.go), recovers hash, author and
message unchanged, in chronological oldest-first order, the message
being the full remainder of its line including internal spaces. -/
theorem thm_c9_log_roundtrip (cs : List Main.Commit)
    (h : ∀ c ∈ cs, Main.LogSafe c) :
    Main.getCommits (Main.logFileOf cs) = some cs :=
  Main.getCommits_logFileOf cs h

/-- Witness for C9 at a concrete log of two commits, the first message
containing internal spaces. -/
theorem thm_c9_log_roundtrip_witness :
    Main.getCommits (Main.logFileOf
      [⟨"h1".data, "alice".data, "first commit msg".data⟩,
       ⟨"h2".data, "bob".data, "second".data⟩]) =
    some [⟨"h1".data, "alice".data, "first commit msg".data⟩,
          ⟨"h2".data, "bob".data, "second".data⟩] :=
  thm_c9_log_roundtrip _ (by decide)

/-- C5: `doLog` (main.go) on an empty log reports "No commits yet.";
on a log of N committed entries it shows exactly those N parsed
entries, most recently appended first (the reverse of the chronological
parse order). -/
theorem thm_c5_history (cs : List Main.Commit)
    (h : ∀ c ∈ cs, Main.LogSafe c) :
    Main.doLog (Main.logFileOf cs) =
      some (if cs.isEmpty then [Main.noCommitsMsg]
            else Main.renderLog cs.reverse) := by
  rw [Main.doLog, Main.getCommits_logFileOf cs h, Option.map_some']

/-- Witness for C5: the empty log and a concrete two-commit log. -/
theorem thm_c5_history_witness :
    Main.doLog (Main.logFileOf []) = some [Main.noCommitsMsg] ∧
    Main.doLog (Main.logFileOf
      [⟨"h1".data, "alice".data, "first".data⟩,
       ⟨"h2".data, "bob".data, "second".data⟩]) =
    some (Main.renderLog
      [⟨"h2".data, "bob".data, "second".data⟩,
       ⟨"h1".data, "alice".data, "first".data⟩]) := by
  constructor
  · exact thm_c5_history [] (by decide)
  · have h := thm_c5_history
      [⟨"h1".data, "alice".data, "first".data⟩,
       ⟨"h2".data, "bob".data, "second".data⟩] (by decide)
    simpa using h

/-- C6: checking out a hash that no commit in the log carries is a soft
not-found report ("Commit does not exist.") and leaves the whole state —
working tree, log, staging index, store — exactly as it was. -/
theorem thm_c6_checkout_unknown_hash (s : VcsState) (hsh : Str)
    (cs : List Main.Commit)
    (h1 : Main.getCommits s.log = some cs)
    (h2 : ∀ c ∈ cs, c.Hash ≠ hsh) :
    Main.doCheckout [hsh] s = some (s, [Main.notExistMsg]) := by
  have hfind : cs.find? (fun c => c.Hash == hsh) = none := by
    rw [List.find?_eq_none]
    intro c hc
    simp [h2 c hc]
  rw [Main.doCheckout, Main.findCommit, h1, Option.map_some', hfind]

/-- Witness for C6 at a concrete one-commit log and a fresh hash. -/
theorem thm_c6_checkout_unknown_hash_witness :
    Main.doCheckout ["zz".data]
      ⟨[], some "alice".data, [], [], "h1 alice first\n".data⟩ =
    some (⟨[], some "alice".data, [], [], "h1 alice first\n".data⟩,
      [Main.notExistMsg]) :=
  thm_c6_checkout_unknown_hash _ _
    [⟨"h1".data, "alice".data, "first".data⟩] (by decide) (by decide)

/-- C7: `doAdd` (main.go) on a path absent from the working tree reports
"Can't find ..." and returns the state unchanged — in particular the
staging index is exactly as before. -/
theorem thm_c7_add_missing_path (s : VcsState) (f : Str)
    (h : lookupAssoc s.fs f = none) :
    Main.doAdd [f] s = (s, [Main.cantFindMsg f]) := by
  rw [Main.doAdd, h]

/-- Witness for C7 at a concrete state and missing path. -/
theorem thm_c7_add_missing_path_witness :
    Main.doAdd ["ghost.txt".data]
      ⟨[("a.txt".data, "hi".data)], none, "a.txt\n".data, [], []⟩ =
    (⟨[("a.txt".data, "hi".data)], none, "a.txt\n".data, [], []⟩,
     [Main.cantFindMsg "ghost.txt".data]) :=
  thm_c7_add_missing_path _ _ (by decide)

/-- C10: every commit reconstructed from the log by part_000's
`getCommits` (hence everything `find`/history can return) carries an
empty `Files` sequence — the log line persists only hash, author and
message. -/
theorem thm_c10_files_not_recoverable (logged : Str) (cs : List Part0.Commit)
    (h : Part0.getCommits logged = some cs) :
    ∀ c ∈ cs, c.Files = [] := by
  rw [Part0.getCommits] at h
  cases hp : Part0.parseAll (goScanLines logged) with
  | none => rw [hp] at h; cases h
  | some cs0 =>
    rw [hp, Option.map_some'] at h
    cases h
    intro c hc
    exact part0_parseAll_files _ cs0 hp c (List.mem_reverse.mp hc)

/-- Witness for C10 at a concrete one-line log. -/
theorem thm_c10_files_not_recoverable_witness :
    Part0.getCommits "h1 alice first\n".data =
      some [⟨"h1".data, ⟨"alice".data⟩, "first".data, []⟩] ∧
    (⟨"h1".data, ⟨"alice".data⟩, "first".data, []⟩ : Part0.Commit).Files = [] :=
  ⟨by decide,
   thm_c10_files_not_recoverable "h1 alice first\n".data _ (by decide) _
     (List.mem_singleton.mpr rfl)⟩

/-- C1 (code bug): `checkout` of a recorded commit's hash resolves the
commit but `restoreCommit` (main.go) only prints it: the state comes
back exactly unchanged, so `a.txt` still holds the modified content
"bye" although the store holds "hello" for that commit — no
byte-for-byte restoration happens. -/
theorem thm_c1_checkout_restores_nothing :
    Main.doCheckout ["h1".data] c1State =
      some (c1State, ["commit h1".data, "Author: alice".data, "first".data]) ∧
    lookupAssoc c1State.fs "a.txt".data = some "bye".data ∧
    lookupAssoc c1State.store ("h1".data, "a.txt".data) = some "hello".data ∧
    "bye".data ≠ "hello".data :=
  ⟨by decide, by decide, by decide, by decide⟩

/-- C2 (code bug): with a configured username and an empty staged set,
main.go's `doCommit` does not report "Nothing to commit.": the digest of
the empty stream never gets a `commits/<hash>` directory (no file is
ever copied), so `hasChanges` is true and a log entry is appended while
"Changes are committed." is printed. -/
theorem thm_c2_empty_staging_commits :
    getTrackedFiles c2State.index = [] ∧
    Main.doCommit (fun b => b) ["msg".data] c2State =
      some ({ c2State with log := " alice msg\n".data }, [Main.committedMsg]) ∧
    (goScanLines " alice msg\n".data).length = 1 :=
  ⟨by decide, by decide, by decide⟩

/-- C8 counterexample: a config file that exists but holds the empty
identity is accepted — `getUsername` returns the empty first line with
no error — and the commit proceeds, mutating store and log and
reporting success, instead of aborting with a precondition failure. -/
theorem thm_c8_empty_identity_commits :
    Main.doCommit (fun b => b) ["m".data] c8State =
      some ({ c8State with
                store := [(("hi".data, "a.txt".data), "hi".data)]
                log := "hi  m\n".data }, [Main.committedMsg]) ∧
    "hi  m\n".data ≠ c8State.log ∧
    [Main.committedMsg] ≠ [Main.whoAreYouMsg] :=
  ⟨by decide, by decide, by decide⟩

/-- C8 as amended: when no identity has been configured at all (the
config file is absent), `doCommit` (main.go) reports
"Please, tell me who are you." and mutates nothing. -/
theorem thm_c8_unconfigured_author_aborts (hashFn : Str → Str) (m : Str)
    (s : VcsState) (h : s.config = none) :
    Main.doCommit hashFn [m] s = some (s, [Main.whoAreYouMsg]) := by
  rw [Main.doCommit, getUsername, h, Option.map_none']

/-- Witness for the amended C8 at a concrete state without a config
file. -/
theorem thm_c8_unconfigured_author_aborts_witness :
    Main.doCommit (fun b => b) ["m".data]
      ⟨[("a.txt".data, "hi".data)], none, "a.txt\n".data, [], []⟩ =
    some (⟨[("a.txt".data, "hi".data)], none, "a.txt\n".data, [], []⟩,
      [Main.whoAreYouMsg]) :=
  thm_c8_unconfigured_author_aborts _ _ _ rfl

/-- C3 counterexample: in main.go a fully successful commit — snapshot
stored, log entry appended, "Changes are committed." printed — leaves
the staging index byte-for-byte unchanged and non-empty (`saveCommit`
never touches `index.txt`). -/
theorem thm_c3_main_commit_keeps_index :
    Main.doCommit (fun b => b) ["first".data] c3State =
      some ({ c3State with
                store := [(("hello".data, "a.txt".data), "hello".data)]
                log := "hello alice first\n".data }, [Main.committedMsg]) ∧
    c3State.index = "a.txt\n".data ∧
    c3State.index ≠ [] :=
  ⟨by decide, by decide, by decide⟩

/-- C3 as amended: in part_000's commit path (`doCommit` → `Commit.Save`
→ `clearStage`), a commit from a non-empty staged set of readable files
with a configured identity succeeds — appending the commit's line to the
log — and truncates the staging index to empty. -/
theorem thm_c3_part0_commit_clears_index (hashFn : Str → Str)
    (m cfg bytes : Str) (s : VcsState)
    (hcfg : s.config = some cfg)
    (hne : getTrackedFiles s.index ≠ [])
    (hb : readAll s.fs (getTrackedFiles s.index) = some bytes) :
    (Part0.doCommit hashFn [m] s).map (fun r => (r.1.index, r.1.log, r.2)) =
      some (([] : Str),
        s.log ++ Part0.lineOf
          ⟨hashFn bytes, ⟨firstLine cfg⟩, m, getTrackedFiles s.index⟩,
        [Part0.commitedMsg]) := by
  obtain ⟨st', hcf, -, -⟩ :=
    commitFiles_of_readAll s.fs (hashFn bytes) (getTrackedFiles s.index)
      s.store bytes hb
  cases hfl : getTrackedFiles s.index with
  | nil => exact absurd hfl hne
  | cons f fs0 =>
    rw [hfl] at hb hcf
    rw [Part0.doCommit, hfl, hcfg]
    simp only [getUsername, Option.map_some', hb, hcf]

/-- Witness for the amended C3 at a concrete state with one staged
file. -/
theorem thm_c3_part0_commit_clears_index_witness :
    (Part0.doCommit (fun b => b) ["first".data] c3WitnessState).map
        (fun r => (r.1.index, r.1.log, r.2)) =
      some (([] : Str), "hello alice first\n".data, [Part0.commitedMsg]) := by
  have h := thm_c3_part0_commit_clears_index (fun b => b) "first".data
    "alice".data "hello".data c3WitnessState rfl (by decide) (by decide)
  simpa using h

/-- C4 counterexample: with an empty staged set, main.go's commit is not
a no-op even the second time — `commits/<digest-of-empty-stream>` never
comes into existence, so both attempts append a log entry and report
"Changes are committed.", two log appends in total. -/
theorem thm_c4_empty_double_commit :
    Main.doCommit (fun b => b) ["m1".data] c4State =
      some ({ c4State with log := " alice m1\n".data }, [Main.committedMsg]) ∧
    Main.doCommit (fun b => b) ["m2".data]
        { c4State with log := " alice m1\n".data } =
      some ({ c4State with log := " alice m1\n alice m2\n".data },
        [Main.committedMsg]) ∧
    (goScanLines " alice m1\n alice m2\n".data).length = 2 :=
  ⟨by decide, by decide, by decide⟩

/-- C4 as amended: for a NON-empty staged set of readable files,
committing twice through main.go with the storage untouched in between
performs at most one content-store write (all new entries sit under the
one digest) and at most one log append, and the second attempt mutates
nothing and reports "Nothing to commit." -/
theorem thm_c4_commit_twice_dedup (hashFn : Str → Str)
    (m m' cfg bytes : Str) (s : VcsState)
    (hcfg : s.config = some cfg)
    (hne : getTrackedFiles s.index ≠ [])
    (hb : readAll s.fs (getTrackedFiles s.index) = some bytes) :
    ∃ s₁ out₁,
      Main.doCommit hashFn [m] s = some (s₁, out₁) ∧
      Main.doCommit hashFn [m'] s₁ = some (s₁, [Main.nothingMsg]) ∧
      (s₁.log = s.log ∨
        s₁.log = s.log ++ Main.lineOf ⟨hashFn bytes, firstLine cfg, m⟩) ∧
      (∀ e ∈ s₁.store, e ∈ s.store ∨ e.1.1 = hashFn bytes) := by
  cases hch : hasChanges s.store (hashFn bytes) with
  | false =>
    refine ⟨s, [Main.nothingMsg], ?_, ?_, Or.inl rfl, fun e he => Or.inl he⟩
    · rw [Main.doCommit, hcfg]
      simp only [getUsername, Option.map_some', Main.saveCommit, hb, hch,
        Bool.false_eq_true, if_false, Option.map_some']
    · rw [Main.doCommit, hcfg]
      simp only [getUsername, Option.map_some', Main.saveCommit, hb, hch,
        Bool.false_eq_true, if_false, Option.map_some']
  | true =>
    obtain ⟨st', hcf, hsub, hany⟩ :=
      commitFiles_of_readAll s.fs (hashFn bytes) (getTrackedFiles s.index)
        s.store bytes hb
    refine ⟨{ s with
                store := st'
                log := Main.addLog ⟨hashFn bytes, firstLine cfg, m⟩ s.log },
            [Main.committedMsg], ?_, ?_, Or.inr rfl, ?_⟩
    · rw [Main.doCommit, hcfg]
      simp only [getUsername, Option.map_some', Main.saveCommit, hb, hch,
        if_true, hcf, Option.map_some', if_pos]
      rw [hcfg]
    · have hch2 : hasChanges st' (hashFn bytes) = false := by
        rw [hasChanges, hany hne, Bool.not_true]
      rw [Main.doCommit, hcfg]
      simp only [getUsername, Option.map_some', Main.saveCommit, hb, hch2,
        Bool.false_eq_true, if_false, Option.map_some']
    · exact hsub

/-- Witness for the amended C4 at a concrete one-file staged state. -/
theorem thm_c4_commit_twice_dedup_witness :
    ∃ s₁ out₁,
      Main.doCommit (fun b => b) ["m".data] c4WitnessState = some (s₁, out₁) ∧
      Main.doCommit (fun b => b) ["m2".data] s₁ = some (s₁, [Main.nothingMsg]) ∧
      (s₁.log = c4WitnessState.log ∨
        s₁.log = c4WitnessState.log ++
          Main.lineOf ⟨"hello".data, firstLine "alice".data, "m".data⟩) ∧
      (∀ e ∈ s₁.store, e ∈ c4WitnessState.store ∨ e.1.1 = "hello".data) :=
  thm_c4_commit_twice_dedup (fun b => b) "m".data "m2".data "alice".data
    "hello".data c4WitnessState rfl (by decide) (by decide)

